import Mathlib

/-!
Verification of the Sahana Eden Mobile synchronization service
(`www/services/sync.js`) and the validation-rule encoder (`emValidate`).

The JavaScript is embedded shallowly:

* a synchronization job (`SyncJob`) is a structure whose `status` field holds
  the literal status string used by the source (`"pending"`, `"active"`,
  `"success"`, `"error"`); the extra `inFlight` field is ghost state recording
  that the job's remote fetch has been issued and its callback has not yet
  fired (in the source this is implicit in which closures are registered);
* the service state (`SyncState`) carries the closure variables `syncJobs`
  and `statusUpdate` together with the shared scope flag `syncInProgress`;
* asynchronous collaborators (`emServer.formList`, `emDB.tables`) are
  modelled by an environment (`Env`) fixing their outcome, and the observable
  side effects of a call are returned in explicit effect/trace records.
-/

namespace JsObject

/-- The string-named members every plain object literal inherits from
Object.prototype (ES2023 section 20.2.3 plus the Annex B section B.2.2
members present in browser and WebView engines).  A string-keyed read on a
plain object reaches these through the prototype chain whenever no own
property shadows them, so a lookup at one of these keys is not undefined
even in an "empty" dictionary. -/
def prototypeKeys : List String :=
  ["constructor", "toString", "toLocaleString", "valueOf", "hasOwnProperty",
   "isPrototypeOf", "propertyIsEnumerable", "__proto__", "__defineGetter__",
   "__defineSetter__", "__lookupGetter__", "__lookupSetter__"]

end JsObject

namespace EdenSync

/-- A transport-level response object, as passed to error callbacks. -/
structure Response where
  code : Int
  deriving Repr, DecidableEq

/-- The opaque reference details `{c:controller, f:function, vars:vars}`
used to construct the server URL. -/
structure Ref where
  c : String
  f : String
  vars : String
  deriving Repr, DecidableEq

/-- A synchronization job, from the `SyncJob` constructor (sync.js 74-83).
The first five fields are the constructor's assignments; `inFlight` is ghost
state marking that `run` has issued the remote fetch and no callback has
fired yet (initially false, the constructor registers no fetch). -/
structure SyncJob where
  type : String
  mode : String
  tableName : String
  ref : Ref
  status : String
  inFlight : Bool
  deriving Repr, DecidableEq

/-- `new SyncJob(type, mode, tableName, ref)`: all jobs start `'pending'`. -/
def SyncJob.new (type mode tableName : String) (ref : Ref) : SyncJob :=
  { type := type, mode := mode, tableName := tableName, ref := ref,
    status := "pending", inFlight := false }

/-- The `filter` predicate of `updateSyncStatus`: a job is open while its
status is `'pending'` or `'active'`. -/
def SyncJob.isOpen (job : SyncJob) : Bool :=
  job.status == "pending" || job.status == "active"

/-- The mutable service state: the closure variables `syncJobs` and
`statusUpdate` of the `emSync` factory, and `$rootScope.syncInProgress`. -/
structure SyncState where
  syncJobs : List SyncJob
  statusUpdate : Bool
  syncInProgress : Bool
  deriving Repr, DecidableEq

/-- `updateSyncStatus` (sync.js 45-62).  If the re-entrancy flag
`statusUpdate` is set, the pass is deferred via `$timeout` and the state is
not touched now; otherwise the queue is compacted to the open jobs and
`syncInProgress` is published accordingly, with the flag cleared again at
the end. -/
def updateSyncStatus (st : SyncState) : SyncState :=
  if st.statusUpdate then
    st
  else
    let openJobs := st.syncJobs.filter SyncJob.isOpen
    { st with
      syncJobs := openJobs,
      syncInProgress := decide (openJobs.length > 0),
      statusUpdate := false }

/-- Observable effects of one call to `SyncJob.prototype.run`. -/
structure RunEffects where
  fetchIssued : Bool
  deriving Repr, DecidableEq

/-- The synchronous part of `SyncJob.prototype.run` (sync.js 88-112): a
guard returns immediately unless the status is `'pending'`; otherwise the
status becomes `'active'` and `emServer.getForm` is invoked (recorded in the
ghost `inFlight` field and in the effect record).  The status-aggregation
pass happens only in the asynchronous callbacks, not here. -/
def SyncJob.run (job : SyncJob) : SyncJob × RunEffects :=
  if job.status != "pending" then
    (job, { fetchIssued := false })
  else
    ({ job with status := "active", inFlight := true }, { fetchIssued := true })

/-- The success callback registered by `run` (sync.js 99-104): sets the
status to `'success'` (and consumes the in-flight fetch). -/
def SyncJob.onSuccess (job : SyncJob) : SyncJob :=
  { job with status := "success", inFlight := false }

/-- The error callback registered by `run` (sync.js 105-110): sets the
status to `'error'` (and consumes the in-flight fetch). -/
def SyncJob.onError (job : SyncJob) : SyncJob :=
  { job with status := "error", inFlight := false }

/-- One observable step in a single job's lifecycle: either some caller
invokes `run()` (in any status — the idempotence guard is inside `run`), or
the remote fetch issued earlier comes back and the success or error callback
registered by `run` fires.  A callback can fire only while a fetch is in
flight, and consuming the fetch prevents it firing twice. -/
inductive JobStep : SyncJob → SyncJob → Prop where
  | runStep (job : SyncJob) : JobStep job job.run.1
  | cbSuccess (job : SyncJob) : job.inFlight = true → JobStep job job.onSuccess
  | cbError (job : SyncJob) : job.inFlight = true → JobStep job job.onError

/-- Reachability along job lifecycle steps. -/
def JobReach : SyncJob → SyncJob → Prop :=
  Relation.ReflTransGen JobStep

/-- The transition discipline of the job status enum: unchanged, or
pending→active, or active→{success, error}. -/
def statusTransOK (s sNew : String) : Prop :=
  sNew = s ∨ (s = "pending" ∧ sNew = "active")
    ∨ (s = "active" ∧ (sNew = "success" ∨ sNew = "error"))

/-- One entry of the form list built by `updateFormList` (sync.js 155-161).
The JavaScript `download` value ranges over true, false and undefined (the
latter arises when the dictionary lookup hits an inherited Object.prototype
member, whose `.download` is undefined); it is represented by the pair
`(download, downloadUndef)`: `download` is the value's truthiness — the only
aspect any consumer in the source reads (`if (form.download)`) — and
`downloadUndef` marks the undefined case (true ↦ (true, false),
false ↦ (false, false), undefined ↦ (false, true)). -/
structure FormEntry where
  name : String
  tableName : String
  ref : Ref
  installed : Bool
  download : Bool
  downloadUndef : Bool := false
  deriving Repr, DecidableEq

/-- One element of the server's form catalog, `{n:..., t:..., r:...}`. -/
structure FormData where
  n : String
  t : String
  r : Ref
  deriving Repr, DecidableEq

/-- The state of the plain object `var items = {}` built at sync.js 124-127:
its own string-keyed properties (in assignment order; a later assignment to
the same key wins), and its prototype, which is Object.prototype (`none`)
unless an assignment to the key "__proto__" invoked the inherited
Object.prototype.__proto__ setter and replaced it with an entry object. -/
structure ItemsState where
  own : List (String × FormEntry)
  proto : Option FormEntry
  deriving Repr, DecidableEq

/-- One assignment `items[item.tableName] = item` (sync.js 126).  For the
key "__proto__" no own property is created: the inherited accessor's setter
fires and the assigned entry object becomes the prototype of `items`.  Any
other key becomes (or overwrites) an own property. -/
def itemsAssign (st : ItemsState) (item : FormEntry) : ItemsState :=
  if item.tableName == "__proto__" then { st with proto := some item }
  else { st with own := st.own ++ [(item.tableName, item)] }

/-- The object `items` after the dictionary-building loop over the current
form list (sync.js 124-127). -/
def items (l : List FormEntry) : ItemsState :=
  l.foldl itemsAssign ⟨[], none⟩

/-- Lookup of an own property: the last assignment to the key wins. -/
def lookupOwn (own : List (String × FormEntry)) (t : String) :
    Option FormEntry :=
  own.foldl (fun acc p => if p.1 == t then some p.2 else acc) none

/-- What the read `items[tableName]` (sync.js 150) yields, as far as the
lines `if (item !== undefined) download = item.download` can tell apart:
a value carrying a `download` property (a form entry), some other non-
undefined value (whose `.download` is undefined), or undefined. -/
inductive DictLookup where
  | entry (e : FormEntry)
  | nonEntry
  | undef
  deriving Repr, DecidableEq

/-- The read `items[t]`, following JavaScript property-lookup semantics:
an own property wins; otherwise the prototype chain is consulted.  With the
prototype replaced by an entry object `p` (a prior "__proto__"-named entry):
reading "__proto__" hits the inherited getter and returns `p` itself (an
entry); reading one of `p`'s field names returns that field's value, a
string/boolean/plain object with no `.download` — except `p.download`
itself, which is undefined when `p` carried an undefined download; any
other Object.prototype member name returns the inherited function/object
(no `.download`); all remaining keys are undefined.  With the prototype
untouched, only the Object.prototype members are inherited. -/
def itemsLookup (st : ItemsState) (t : String) : DictLookup :=
  match lookupOwn st.own t with
  | some e => DictLookup.entry e
  | none =>
    match st.proto with
    | some p =>
        if t == "__proto__" then DictLookup.entry p
        else if t == "download" then
          (if p.downloadUndef then DictLookup.undef else DictLookup.nonEntry)
        else if ["name", "tableName", "ref", "installed"].contains t then
          DictLookup.nonEntry
        else if JsObject.prototypeKeys.contains t then DictLookup.nonEntry
        else DictLookup.undef
    | none =>
        if JsObject.prototypeKeys.contains t then DictLookup.nonEntry
        else DictLookup.undef

/-- `updateFormList(currentList, tables, data)` (sync.js 121-165): one entry
per catalog element, `installed` iff the table name occurs in `tables`
(`indexOf != -1`), and `download` defaulting to `true` unless
`items[tableName] !== undefined`, in which case it is overwritten with
`item.download` — the prior entry's value when the lookup found an entry,
and undefined (represented as `(false, true)`) when it found any other
non-undefined value, such as an inherited Object.prototype member. -/
def updateFormList (currentList : List FormEntry) (tables : List String)
    (data : List FormData) : List FormEntry :=
  let dict := items currentList
  data.map (fun formData =>
    let tableName := formData.t
    let installed := tables.contains tableName
    let dl :=
      match itemsLookup dict tableName with
      | DictLookup.entry item => (item.download, item.downloadUndef)
      | DictLookup.nonEntry => (false, true)
      | DictLookup.undef => (true, false)
    { name := formData.n, tableName := tableName, ref := formData.r,
      installed := installed, download := dl.1, downloadUndef := dl.2 })

/-- `generateSyncJobs(formList)` (sync.js 208-219), with the mutated closure
variable `syncJobs` passed explicitly: for each form with a true `download`
flag a job `new SyncJob('form', 'pull', form.tableName, form.ref)` is pushed
and the counter incremented.  Returns the counter and the new queue. -/
def generateSyncJobs (formList : List FormEntry) (queue : List SyncJob) :
    Nat × List SyncJob :=
  formList.foldl
    (fun acc form =>
      if form.download then
        (acc.1 + 1, acc.2 ++ [SyncJob.new "form" "pull" form.tableName form.ref])
      else acc)
    (0, queue)

/-- The environment fixing the outcomes of the asynchronous collaborators:
the server's form catalog request (`emServer.formList`), which either
delivers catalog data or fails with a response object, and the local table
registry (`emDB.tables`). -/
structure Env where
  catalog : Except Response (List FormData)
  tableNames : List String

/-- Observable effects of one call to `getFormList`. -/
structure GetFormListEffects where
  serverCalled : Bool
  tablesQueried : Bool
  httpErrorRaised : Bool
  aggregationTriggered : Bool
  deriving Repr, DecidableEq

/-- `getFormList(formList)` (sync.js 175-199).  A non-empty given list is
resolved immediately (`formList && formList.length`).  Otherwise the server
catalog is requested: on success the local table names are queried and the
merged list resolves the promise; on failure `updateSyncStatus` runs,
`emServer.httpError(response)` is raised and the promise rejects with the
response.  Returns the promise outcome, the service state afterwards and
the effect record. -/
def getFormList (formList : List FormEntry) (st : SyncState) (env : Env) :
    Except Response (List FormEntry) × SyncState × GetFormListEffects :=
  if formList.isEmpty = false then
    (Except.ok formList, st,
     { serverCalled := false, tablesQueried := false,
       httpErrorRaised := false, aggregationTriggered := false })
  else
    match env.catalog with
    | Except.ok data =>
        (Except.ok (updateFormList [] env.tableNames data), st,
         { serverCalled := true, tablesQueried := true,
           httpErrorRaised := false, aggregationTriggered := false })
    | Except.error response =>
        (Except.error response, updateSyncStatus st,
         { serverCalled := true, tablesQueried := false,
           httpErrorRaised := true, aggregationTriggered := true })

/-- The queue after the non-empty-queue branch of `synchronize`
(sync.js 231-237): `run()` is invoked on each job whose status is
`'pending'`, other jobs are left untouched. -/
def activatePending (queue : List SyncJob) : List SyncJob :=
  queue.map (fun job => if job.status == "pending" then (job.run).1 else job)

/-- Trace of one invocation of `synchronize` (the outermost call only;
on recursion the final state is the recursive call's, but the trace fields
describe the invocation at hand). -/
structure SyncTrace where
  ranPending : Nat
  resolvedFormList : Bool
  jobsGenerated : Nat
  recursedWith : Option (List FormEntry)
  aggregationTriggered : Bool
  httpErrorRaised : Bool
  rejectedWith : Option Response
  deriving Repr, DecidableEq

/-- `synchronize(forms)` (sync.js 227-249), with fuel making the
self-recursion structural (the recursive call always finds a non-empty
queue, so fuel 2 suffices for any input; fuel exhaustion yields `none`).
The flag `syncInProgress` is set optimistically; with a non-empty queue all
pending jobs are run and the call returns; with an empty queue the form
list is resolved, jobs are generated, and either the call recurses with the
resolved list (at least one job scheduled) or `updateSyncStatus` runs (none
scheduled).  A rejected form-list promise has no handler, so the call ends
with the state left by `getFormList`'s error path. -/
def synchronize : Nat → SyncState → List FormEntry → Env →
    Option (SyncState × SyncTrace)
  | 0, _, _, _ => none
  | fuel + 1, st, forms, env =>
    let st1 : SyncState := { st with syncInProgress := true }
    if st1.syncJobs.isEmpty = false then
      some ({ st1 with syncJobs := activatePending st1.syncJobs },
        { ranPending := (st1.syncJobs.filter (fun j => j.status == "pending")).length,
          resolvedFormList := false, jobsGenerated := 0, recursedWith := none,
          aggregationTriggered := false, httpErrorRaised := false,
          rejectedWith := none })
    else
      match getFormList forms st1 env with
      | (Except.ok formList, st2, _) =>
          let generated := generateSyncJobs formList st2.syncJobs
          if generated.1 > 0 then
            match synchronize fuel { st2 with syncJobs := generated.2 } formList env with
            | some (stFinal, _) =>
                some (stFinal,
                  { ranPending := 0, resolvedFormList := true,
                    jobsGenerated := generated.1, recursedWith := some formList,
                    aggregationTriggered := false, httpErrorRaised := false,
                    rejectedWith := none })
            | none => none
          else
            some (updateSyncStatus { st2 with syncJobs := generated.2 },
              { ranPending := 0, resolvedFormList := true,
                jobsGenerated := generated.1, recursedWith := none,
                aggregationTriggered := true, httpErrorRaised := false,
                rejectedWith := none })
      | (Except.error response, st2, eff) =>
          some (st2,
            { ranPending := 0, resolvedFormList := true, jobsGenerated := 0,
              recursedWith := none,
              aggregationTriggered := eff.aggregationTriggered,
              httpErrorRaised := eff.httpErrorRaised,
              rejectedWith := some response })

end EdenSync

namespace EdenValidate

/-- A JavaScript numeric option value: an integer or NaN (the behaviours the
rules distinguish: `x !== undefined && !isNaN(x - 0)`, truthiness, and
string concatenation). -/
inductive JsNum where
  | num (n : Int)
  | nan
  deriving Repr, DecidableEq

/-- The options object passed to a validation rule: the keywords read by the
rules are `error`, `min` and `max`; an absent keyword is `none`. -/
structure Options where
  error : Option String
  min : Option JsNum
  max : Option JsNum
  deriving Repr, DecidableEq

/-- The empty options object `{}`. -/
def Options.empty : Options :=
  { error := none, min := none, max := none }

/-- The object returned by every validation rule: `directives` is the
attribute map in insertion order, `errors` the list of error keys, `message`
the error message. -/
structure RuleResult where
  directives : List (String × String)
  errors : List String
  message : String
  deriving Repr, DecidableEq

/-- `var errorMsg = options.error; if (!errorMsg) errorMsg = d;` — the empty
string and an absent value are falsy, so both fall back to the default. -/
def errorMsgOr (v : Option String) (d : String) : String :=
  match v with
  | some s => if s.isEmpty then d else s
  | none => d

/-- The bound processing shared by `isIntInRange` and `isFloatInRange`:
`if (v !== undefined && !isNaN(v - 0)) v = directives.bound = '' + v;`.
Returns the string now held by the local variable when the guard passed
(NaN fails `!isNaN(v - 0)` and `undefined` fails the first test; in both
cases the local keeps a falsy value and no directive is added). -/
def boundStr (v : Option JsNum) : Option String :=
  match v with
  | some (JsNum.num n) => some (toString n)
  | some JsNum.nan => none
  | none => none

/-- `rules.isNotEmpty` (forms.js 300-313). -/
def isNotEmpty (options : Options) : RuleResult :=
  { directives := [("ng-required", "true")],
    errors := ["required"],
    message := errorMsgOr options.error "Enter a value" }

/-- `rules.isIntInRange` (forms.js 325-359): an `ng-pattern` directive plus
optional `min`/`max` directives, with the error keys and default message
depending on which bounds were given. -/
def isIntInRange (options : Options) : RuleResult :=
  let min := boundStr options.min
  let max := boundStr options.max
  let directives :=
    [("ng-pattern", "/^[-+]?[0-9]*$/")]
      ++ (match min with | some s => [("min", s)] | none => [])
      ++ (match max with | some s => [("max", s)] | none => [])
  let errors := ["number", "pattern"]
  match options.error with
  | some s =>
      if s.isEmpty then
        match min, max with
        | some mn, some mx =>
            { directives := directives, errors := errors ++ ["min", "max"],
              message := "Enter an integer between " ++ mn ++ " and " ++ mx }
        | some mn, none =>
            { directives := directives, errors := errors ++ ["min"],
              message := "Enter an integer >= " ++ mn }
        | none, some mx =>
            { directives := directives, errors := errors ++ ["max"],
              message := "Enter an integer <= " ++ mx }
        | none, none =>
            { directives := directives, errors := errors,
              message := "Enter an integer" }
      else { directives := directives, errors := errors, message := s }
  | none =>
      match min, max with
      | some mn, some mx =>
          { directives := directives, errors := errors ++ ["min", "max"],
            message := "Enter an integer between " ++ mn ++ " and " ++ mx }
      | some mn, none =>
          { directives := directives, errors := errors ++ ["min"],
            message := "Enter an integer >= " ++ mn }
      | none, some mx =>
          { directives := directives, errors := errors ++ ["max"],
            message := "Enter an integer <= " ++ mx }
      | none, none =>
          { directives := directives, errors := errors,
            message := "Enter an integer" }

/-- `rules.isFloatInRange` (forms.js 371-405): like `isIntInRange` but with
no pattern directive, error key base `['number']` and "number" wording. -/
def isFloatInRange (options : Options) : RuleResult :=
  let min := boundStr options.min
  let max := boundStr options.max
  let directives :=
    (match min with | some s => [("min", s)] | none => [])
      ++ (match max with | some s => [("max", s)] | none => [])
  let errors := ["number"]
  match options.error with
  | some s =>
      if s.isEmpty then
        match min, max with
        | some mn, some mx =>
            { directives := directives, errors := errors ++ ["min", "max"],
              message := "Enter a number between " ++ mn ++ " and " ++ mx }
        | some mn, none =>
            { directives := directives, errors := errors ++ ["min"],
              message := "Enter a number >= " ++ mn }
        | none, some mx =>
            { directives := directives, errors := errors ++ ["max"],
              message := "Enter a number <= " ++ mx }
        | none, none =>
            { directives := directives, errors := errors,
              message := "Enter a number" }
      else { directives := directives, errors := errors, message := s }
  | none =>
      match min, max with
      | some mn, some mx =>
          { directives := directives, errors := errors ++ ["min", "max"],
            message := "Enter a number between " ++ mn ++ " and " ++ mx }
      | some mn, none =>
          { directives := directives, errors := errors ++ ["min"],
            message := "Enter a number >= " ++ mn }
      | none, some mx =>
          { directives := directives, errors := errors ++ ["max"],
            message := "Enter a number <= " ++ mx }
      | none, none =>
          { directives := directives, errors := errors,
            message := "Enter a number" }

/-- `rules.isJson` (forms.js 413-425). -/
def isJson (options : Options) : RuleResult :=
  { directives := [("is-json", "")],
    errors := ["json", "parse"],
    message := errorMsgOr options.error "Enter a valid JSON expression" }

/-- What the read `rules[name]` (forms.js 450) yields.  The `rules` object
literal (forms.js 297-426) has the four rule functions as own properties;
any other name falls through to the prototype chain and yields the
inherited Object.prototype member when there is one, undefined otherwise.
All inherited members are truthy, so they pass the `if (rule)` guard; what
distinguishes them is what `rule(options)` then does (the module is strict,
so a plain call passes `this = undefined`):
`toString` returns the string "[object Undefined]" (ES2023 20.2.3.6 step 1);
`constructor` is the Object constructor, which returns its object argument;
reading `__proto__` hits the inherited getter and yields Object.prototype
itself, which is not callable, so the call throws a TypeError; every other
member begins by coercing its undefined `this` to an object and throws a
TypeError. -/
inductive RulesMember where
  | ownRule (f : Options → RuleResult)
  | protoToString
  | protoConstructor
  | protoOther
  | undef

/-- The read `rules[name]` (forms.js 450) under JavaScript property-lookup
semantics: the four own rule functions, then the inherited Object.prototype
members, then undefined. -/
def rules (name : String) : RulesMember :=
  if name = "isNotEmpty" then RulesMember.ownRule isNotEmpty
  else if name = "isIntInRange" then RulesMember.ownRule isIntInRange
  else if name = "isFloatInRange" then RulesMember.ownRule isFloatInRange
  else if name = "isJson" then RulesMember.ownRule isJson
  else if name = "toString" then RulesMember.protoToString
  else if name = "constructor" then RulesMember.protoConstructor
  else if JsObject.prototypeKeys.contains name then RulesMember.protoOther
  else RulesMember.undef

/-- The possible outcomes of `emValidate.encode(name, options)`: the null
returned for an undefined rule, a rule-result object, the string returned
by the inherited toString, the options object echoed by the inherited
Object constructor, or a thrown TypeError. -/
inductive EncodeOutcome where
  | nullValue
  | result (r : RuleResult)
  | stringValue (s : String)
  | echoed (o : Options)
  | typeError
  deriving Repr, DecidableEq

/-- `emValidate.encode(name, options)` (forms.js 448-459): looks `name` up
in the rule table; a falsy (undefined) lookup yields `null`; otherwise a
falsy `options` argument (absent or null) is replaced by the empty object
and the looked-up value is called — an own rule function produces its
rule-result object, while the inherited Object.prototype members behave as
described at `RulesMember`. -/
def encode (name : String) (options : Option Options) : EncodeOutcome :=
  let opts := match options with | some o => o | none => Options.empty
  match rules name with
  | RulesMember.ownRule f => EncodeOutcome.result (f opts)
  | RulesMember.protoToString => EncodeOutcome.stringValue "[object Undefined]"
  | RulesMember.protoConstructor => EncodeOutcome.echoed opts
  | RulesMember.protoOther => EncodeOutcome.typeError
  | RulesMember.undef => EncodeOutcome.nullValue

end EdenValidate

namespace EdenSync

/-- A concrete reference value used by the concrete witness instances. -/
def refW : Ref := ⟨"c", "f", "v"⟩

/-- A concrete job in terminal status `'success'`. -/
def jobSuccessW : SyncJob :=
  { type := "form", mode := "pull", tableName := "a", ref := refW,
    status := "success", inFlight := false }

/-- A concrete job in terminal status `'error'`. -/
def jobErrorW : SyncJob :=
  { type := "form", mode := "pull", tableName := "b", ref := refW,
    status := "error", inFlight := false }

/-- A concrete job in status `'active'` with its fetch in flight. -/
def jobActiveW : SyncJob :=
  { type := "form", mode := "pull", tableName := "t", ref := refW,
    status := "active", inFlight := true }

/-- A concrete state whose queue holds only terminal jobs. -/
def stTerminalW : SyncState := ⟨[jobSuccessW, jobErrorW], false, true⟩

/-- A concrete form-list entry with `download = false`. -/
def entryNoDownloadW : FormEntry :=
  { name := "A", tableName := "a", ref := refW, installed := false,
    download := false }

/-- A concrete form-list entry with `download = true`. -/
def entryDownloadW : FormEntry :=
  { name := "A", tableName := "a", ref := refW, installed := true,
    download := true }

/-- A concrete form-list entry for a table absent from the catalog below. -/
def entryBW : FormEntry :=
  { name := "B", tableName := "b", ref := refW, installed := false,
    download := false }

/-- A concrete one-element server catalog. -/
def dataW : List FormData := [⟨"A", "a", refW⟩]

/-- The entry produced by updateFormList from dataW with prior list
[entryNoDownloadW] and existing table "a": installed (the table exists),
download carried over from the prior entry. -/
def resultEntryW : FormEntry :=
  { name := "A", tableName := "a", ref := refW, installed := true,
    download := false }

/-- A concrete freshly constructed job. -/
def jobNewW : SyncJob := SyncJob.new "form" "pull" "t" refW

/-- A concrete one-element catalog whose table name collides with an
inherited Object.prototype member. -/
def protoDataW : List FormData := [⟨"X", "toString", refW⟩]

/-- The entry the source produces from protoDataW with an empty prior list:
its download is undefined (the lookup found Object.prototype.toString), not
the default true. -/
def protoEntryW : FormEntry :=
  { name := "X", tableName := "toString", ref := refW, installed := false,
    download := false, downloadUndef := true }

/-- A concrete idle service state with an empty queue. -/
def stEmptyW : SyncState := ⟨[], false, false⟩

/-- A concrete environment whose catalog request fails with a 404. -/
def envFailW : Env := ⟨Except.error ⟨404⟩, []⟩

/-- A concrete environment whose catalog request succeeds with dataW and
whose local table registry holds table "a". -/
def envOkW : Env := ⟨Except.ok dataW, ["a"]⟩

/-- The effects of a failed catalog fetch inside getFormList. -/
def gflFailEffW : GetFormListEffects := ⟨true, false, true, true⟩

/-- The effects of a successful catalog fetch inside getFormList. -/
def gflOkEffW : GetFormListEffects := ⟨true, true, false, false⟩

/-- The driver trace of the failed-catalog run. -/
def failTraceW : SyncTrace := ⟨0, true, 0, none, true, true, some ⟨404⟩⟩

/-- The driver trace of the run that generates one job and recurses. -/
def recurseTraceW : SyncTrace :=
  ⟨0, true, (generateSyncJobs [entryDownloadW] []).1, some [entryDownloadW],
   false, false, none⟩

theorem generateSyncJobs_foldl (formList : List FormEntry) (n : Nat)
    (queue : List SyncJob) :
    formList.foldl
      (fun acc form =>
        if form.download then
          (acc.1 + 1, acc.2 ++ [SyncJob.new "form" "pull" form.tableName form.ref])
        else acc)
      (n, queue)
    = (n + (formList.filter (fun f => f.download)).length,
       queue ++ (formList.filter (fun f => f.download)).map
         (fun f => SyncJob.new "form" "pull" f.tableName f.ref)) := by
  induction formList generalizing n queue with
  | nil => simp
  | cons f l ih =>
    rw [List.foldl_cons, List.filter_cons]
    by_cases hd : f.download = true
    · rw [if_pos hd, if_pos hd, ih]
      refine congrArg₂ Prod.mk (by simp; omega) (by simp)
    · rw [if_neg hd, if_neg hd, ih]

theorem generateSyncJobs_eq (formList : List FormEntry) (queue : List SyncJob) :
    generateSyncJobs formList queue
      = ((formList.filter (fun f => f.download)).length,
         queue ++ (formList.filter (fun f => f.download)).map
           (fun f => SyncJob.new "form" "pull" f.tableName f.ref)) := by
  have h := generateSyncJobs_foldl formList 0 queue
  simpa [generateSyncJobs] using h

/-- C1: a status-aggregation pass entered with the busy flag clear leaves the
queue holding exactly the jobs whose status is `'pending'` or `'active'`, in
their original order, and publishes `syncInProgress = true` iff such a job
remains; in particular, once every job is `'success'` or `'error'`, the pass
never leaves `syncInProgress = true`. -/
theorem updateSyncStatus_spec (st : SyncState) (h : st.statusUpdate = false) :
    (updateSyncStatus st).syncJobs
        = st.syncJobs.filter (fun j => j.status == "pending" || j.status == "active")
    ∧ ((updateSyncStatus st).syncInProgress = true
        ↔ ∃ j ∈ st.syncJobs, j.status = "pending" ∨ j.status = "active")
    ∧ ((∀ j ∈ st.syncJobs, j.status = "success" ∨ j.status = "error") →
        (updateSyncStatus st).syncInProgress = false) := by
  have hq : (updateSyncStatus st).syncJobs
      = st.syncJobs.filter SyncJob.isOpen := by
    simp [updateSyncStatus, h]
  have hflag : (updateSyncStatus st).syncInProgress
      = decide ((st.syncJobs.filter SyncJob.isOpen).length > 0) := by
    simp [updateSyncStatus, h]
  have hopen_iff : ∀ j : SyncJob,
      SyncJob.isOpen j = true ↔ (j.status = "pending" ∨ j.status = "active") := by
    intro j
    simp [SyncJob.isOpen]
  have hiff : (updateSyncStatus st).syncInProgress = true
      ↔ ∃ j ∈ st.syncJobs, j.status = "pending" ∨ j.status = "active" := by
    rw [hflag]
    constructor
    · intro hd
      have hlen : 0 < (st.syncJobs.filter SyncJob.isOpen).length := by
        simpa using hd
      obtain ⟨j, hj⟩ := List.exists_mem_of_length_pos hlen
      rw [List.mem_filter] at hj
      exact ⟨j, hj.1, (hopen_iff j).mp hj.2⟩
    · rintro ⟨j, hj, ho⟩
      have hmem : j ∈ st.syncJobs.filter SyncJob.isOpen :=
        List.mem_filter.mpr ⟨hj, (hopen_iff j).mpr ho⟩
      simpa using List.length_pos_of_mem hmem
  refine ⟨hq, hiff, ?_⟩
  intro hall
  cases hval : (updateSyncStatus st).syncInProgress with
  | false => rfl
  | true =>
    obtain ⟨j, hj, hopen⟩ := hiff.mp hval
    rcases hall j hj with ht | ht <;> rcases hopen with ho | ho <;>
      rw [ht] at ho <;> exact absurd ho (by decide)

/-- Witness for `updateSyncStatus_spec` at a concrete state: one job in
`'success'`, one in `'error'`. -/
theorem updateSyncStatus_spec_witness :
    stTerminalW.statusUpdate = false
    ∧ ((∀ j ∈ stTerminalW.syncJobs, j.status = "success" ∨ j.status = "error") →
        (updateSyncStatus stTerminalW).syncInProgress = false) :=
  ⟨rfl, (updateSyncStatus_spec stTerminalW rfl).2.2⟩

/-- C2: `generateSyncJobs` returns the number of entries whose `download`
flag is true, appends exactly that many fresh pull-type pending jobs to the
queue in order, skips entries with `download = false`, and leaves the queue
unchanged (count 0) when every entry has `download = false`. -/
theorem generateSyncJobs_spec (formList : List FormEntry) (queue : List SyncJob) :
    (generateSyncJobs formList queue).1
        = (formList.filter (fun f => f.download)).length
    ∧ (generateSyncJobs formList queue).2
        = queue ++ (formList.filter (fun f => f.download)).map
            (fun f => SyncJob.new "form" "pull" f.tableName f.ref)
    ∧ (∀ j ∈ (formList.filter (fun f => f.download)).map
          (fun f => SyncJob.new "form" "pull" f.tableName f.ref),
        j.type = "form" ∧ j.mode = "pull" ∧ j.status = "pending")
    ∧ ((∀ f ∈ formList, f.download = false) →
        (generateSyncJobs formList queue).1 = 0
          ∧ (generateSyncJobs formList queue).2 = queue) := by
  have he := generateSyncJobs_eq formList queue
  refine ⟨by rw [he], by rw [he], ?_, ?_⟩
  · intro j hj
    simp only [List.mem_map] at hj
    obtain ⟨f, _, rfl⟩ := hj
    exact ⟨rfl, rfl, rfl⟩
  · intro hall
    have hfil : formList.filter (fun f => f.download) = [] := by
      rw [List.filter_eq_nil_iff]
      intro f hf
      simp [hall f hf]
    rw [he, hfil]
    simp

/-- Witness for `generateSyncJobs_spec` at a one-entry list with
`download = false` and a non-empty queue. -/
theorem generateSyncJobs_spec_witness :
    (∀ f ∈ [entryNoDownloadW], f.download = false)
    ∧ ((generateSyncJobs [entryNoDownloadW] [SyncJob.new "form" "pull" "q" refW]).1 = 0
        ∧ (generateSyncJobs [entryNoDownloadW] [SyncJob.new "form" "pull" "q" refW]).2
            = [SyncJob.new "form" "pull" "q" refW]) :=
  ⟨by decide, (generateSyncJobs_spec [entryNoDownloadW]
      [SyncJob.new "form" "pull" "q" refW]).2.2.2 (by decide)⟩

/-- C4: `run()` on a job whose status is not `'pending'` changes nothing:
the job is returned with every field (including the ghost in-flight marker)
unchanged, and no remote fetch is issued — hence no callback, and so no
status-aggregation pass, can result from the call. -/
theorem run_nonpending_noop (job : SyncJob) (h : job.status ≠ "pending") :
    job.run = (job, { fetchIssued := false }) := by
  simp [SyncJob.run, h]

/-- Witness for `run_nonpending_noop` at a concrete `'active'` job. -/
theorem run_nonpending_noop_witness :
    jobActiveW.status ≠ "pending"
    ∧ jobActiveW.run = (jobActiveW, { fetchIssued := false }) :=
  ⟨by decide, run_nonpending_noop jobActiveW (by decide)⟩

/-- C8: `getFormList` on a non-empty list resolves immediately with that
same list, touching no state and issuing neither a server catalog request
nor a table-registry query. -/
theorem getFormList_cache_hit (formList : List FormEntry) (st : SyncState)
    (env : Env) (h : formList ≠ []) :
    getFormList formList st env
      = (Except.ok formList, st,
         { serverCalled := false, tablesQueried := false,
           httpErrorRaised := false, aggregationTriggered := false }) := by
  cases formList with
  | nil => exact absurd rfl h
  | cons a l => rfl

/-- Witness for `getFormList_cache_hit` at a singleton cached list, with an
environment whose server request would fail if it were issued. -/
theorem getFormList_cache_hit_witness :
    [entryDownloadW] ≠ ([] : List FormEntry)
    ∧ getFormList [entryDownloadW] ⟨[], false, false⟩ ⟨Except.error ⟨500⟩, []⟩
      = (Except.ok [entryDownloadW], ⟨[], false, false⟩,
         { serverCalled := false, tablesQueried := false,
           httpErrorRaised := false, aggregationTriggered := false }) :=
  ⟨by decide, getFormList_cache_hit [entryDownloadW] ⟨[], false, false⟩
      ⟨Except.error ⟨500⟩, []⟩ (by decide)⟩

theorem lookupOwn_foldl_no_match (ps : List (String × FormEntry))
    (t : String) (acc : Option FormEntry) (h : ∀ p ∈ ps, p.1 ≠ t) :
    ps.foldl (fun acc p => if p.1 == t then some p.2 else acc) acc = acc := by
  induction ps generalizing acc with
  | nil => rfl
  | cons x xs ih =>
    have hx : ¬(x.1 == t) = true := by
      simpa using h x (List.mem_cons_self x xs)
    rw [List.foldl_cons, if_neg hx]
    exact ih acc (fun p hp => h p (List.mem_cons_of_mem x hp))

theorem lookupOwn_eq_find (l : List FormEntry) (t : String)
    (hnd : (l.map FormEntry.tableName).Nodup) :
    lookupOwn (l.map (fun e => (e.tableName, e))) t
      = l.find? (fun item => item.tableName == t) := by
  induction l with
  | nil => rfl
  | cons x xs ih =>
    rw [List.map_cons, List.nodup_cons] at hnd
    by_cases hx : x.tableName = t
    · have hxs : ∀ p ∈ xs.map (fun e => (e.tableName, e)), p.1 ≠ t := by
        intro p hp he
        simp only [List.mem_map] at hp
        obtain ⟨e2, he2, rfl⟩ := hp
        apply hnd.1
        rw [hx, ← he]
        exact List.mem_map_of_mem FormEntry.tableName he2
      rw [lookupOwn, List.map_cons, List.foldl_cons, if_pos (by simpa using hx),
        lookupOwn_foldl_no_match _ t (some x) hxs,
        List.find?_cons_of_pos _ (by simpa using hx)]
    · rw [lookupOwn, List.map_cons, List.foldl_cons, if_neg (by simpa using hx),
        List.find?_cons_of_neg _ (by simpa using hx)]
      exact ih hnd.2

theorem items_foldl_no_proto (l : List FormEntry)
    (own : List (String × FormEntry))
    (hp : "__proto__" ∉ l.map FormEntry.tableName) :
    l.foldl itemsAssign ⟨own, none⟩
      = ⟨own ++ l.map (fun e => (e.tableName, e)), none⟩ := by
  induction l generalizing own with
  | nil => simp
  | cons x xs ih =>
    simp only [List.map_cons, List.mem_cons, not_or] at hp
    have hx : ¬(x.tableName == "__proto__") = true := by
      simpa using fun he => hp.1 he.symm
    rw [List.foldl_cons]
    rw [show itemsAssign ⟨own, none⟩ x
        = ⟨own ++ [(x.tableName, x)], none⟩ from by rw [itemsAssign, if_neg hx]]
    rw [ih (own ++ [(x.tableName, x)]) hp.2]
    simp

theorem items_no_proto (l : List FormEntry)
    (hp : "__proto__" ∉ l.map FormEntry.tableName) :
    items l = ⟨l.map (fun e => (e.tableName, e)), none⟩ := by
  simpa [items] using items_foldl_no_proto l [] hp

theorem updateFormList_length (currentList : List FormEntry)
    (tables : List String) (data : List FormData) :
    (updateFormList currentList tables data).length = data.length := by
  simp [updateFormList]

/-- C3 counterexample: with an empty prior list and the catalog table name
"toString", the dictionary lookup hits the inherited
Object.prototype.toString (which is not undefined), so the produced entry's
download is `toString.download`, i.e. undefined — not the claimed default
true.  (Downstream this undefined is falsy, so the form is not fetched.) -/
theorem updateFormList_proto_counterexample :
    updateFormList [] [] protoDataW = [protoEntryW]
    ∧ protoEntryW.tableName = "toString"
    ∧ ¬(protoEntryW.download = true ∧ protoEntryW.downloadUndef = false) := by
  refine ⟨by decide, rfl, by decide⟩

/-- C3 amended: provided the prior list's table names are unambiguous and
none of them is "__proto__" (which would corrupt the dictionary via the
inherited prototype setter), every entry produced by `updateFormList` is
installed iff its table name occurs among the supplied existing tables, and
its download value is: the prior entry's value when a prior entry with the
same table name exists; otherwise undefined when the table name collides
with an inherited Object.prototype member; otherwise the default true. -/
theorem updateFormList_flags_amended (currentList : List FormEntry)
    (tables : List String) (data : List FormData)
    (hnd : (currentList.map FormEntry.tableName).Nodup)
    (hp : "__proto__" ∉ currentList.map FormEntry.tableName) :
    ∀ e ∈ updateFormList currentList tables data,
      (e.installed = true ↔ e.tableName ∈ tables)
      ∧ (match currentList.find? (fun item => item.tableName == e.tableName) with
         | some item =>
             e.download = item.download ∧ e.downloadUndef = item.downloadUndef
         | none =>
             if e.tableName ∈ JsObject.prototypeKeys
             then e.download = false ∧ e.downloadUndef = true
             else e.download = true ∧ e.downloadUndef = false) := by
  intro e he
  simp only [updateFormList, List.mem_map] at he
  obtain ⟨fd, hfd, rfl⟩ := he
  refine ⟨by simp, ?_⟩
  have hlook : itemsLookup (items currentList) fd.t
      = (match currentList.find? (fun item => item.tableName == fd.t) with
         | some item => DictLookup.entry item
         | none =>
             if JsObject.prototypeKeys.contains fd.t
             then DictLookup.nonEntry
             else DictLookup.undef) := by
    rw [items_no_proto currentList hp, itemsLookup,
      lookupOwn_eq_find currentList fd.t hnd]
  dsimp only
  rw [hlook]
  cases hfind : currentList.find? (fun item => item.tableName == fd.t) with
  | some item => exact ⟨rfl, rfl⟩
  | none =>
    by_cases hmem : fd.t ∈ JsObject.prototypeKeys
    · rw [if_pos (by simpa using hmem), if_pos hmem]
      exact ⟨rfl, rfl⟩
    · rw [if_neg (by simpa using hmem), if_neg hmem]
      exact ⟨rfl, rfl⟩

/-- Witness for `updateFormList_flags_amended`: a prior entry for table "a"
with `download = false` is carried into the refreshed entry, which is
installed because table "a" exists locally. -/
theorem updateFormList_flags_amended_witness :
    ([entryNoDownloadW].map FormEntry.tableName).Nodup
    ∧ "__proto__" ∉ [entryNoDownloadW].map FormEntry.tableName
    ∧ resultEntryW ∈ updateFormList [entryNoDownloadW] ["a"] dataW
    ∧ ((resultEntryW.installed = true ↔ resultEntryW.tableName ∈ ["a"])
        ∧ (match [entryNoDownloadW].find?
              (fun item => item.tableName == resultEntryW.tableName) with
           | some item =>
               resultEntryW.download = item.download
                 ∧ resultEntryW.downloadUndef = item.downloadUndef
           | none =>
               if resultEntryW.tableName ∈ JsObject.prototypeKeys
               then resultEntryW.download = false ∧ resultEntryW.downloadUndef = true
               else resultEntryW.download = true ∧ resultEntryW.downloadUndef = false)) :=
  ⟨by decide, by decide, by decide,
   updateFormList_flags_amended [entryNoDownloadW] ["a"] dataW (by decide)
     (by decide) resultEntryW (by decide)⟩

/-- C9: the list returned by `updateFormList` has exactly one entry per
catalog element, in catalog order, with identity fields copied from the
catalog; every returned table name comes from the catalog, so a prior-list
entry whose table the server no longer lists has no counterpart in the
result (its download selection is discarded). -/
theorem updateFormList_catalog_shape (currentList : List FormEntry)
    (tables : List String) (data : List FormData) :
    (updateFormList currentList tables data).length = data.length
    ∧ (∀ i : Fin data.length,
        ((updateFormList currentList tables data).get
            (Fin.cast (updateFormList_length currentList tables data).symm i)).name
            = (data.get i).n
        ∧ ((updateFormList currentList tables data).get
            (Fin.cast (updateFormList_length currentList tables data).symm i)).tableName
            = (data.get i).t
        ∧ ((updateFormList currentList tables data).get
            (Fin.cast (updateFormList_length currentList tables data).symm i)).ref
            = (data.get i).r)
    ∧ (∀ e ∈ updateFormList currentList tables data,
        e.tableName ∈ data.map FormData.t)
    ∧ (∀ item ∈ currentList, item.tableName ∉ data.map FormData.t →
        ∀ e ∈ updateFormList currentList tables data,
          e.tableName ≠ item.tableName) := by
  refine ⟨updateFormList_length currentList tables data, ?_, ?_, ?_⟩
  · intro i
    refine ⟨?_, ?_, ?_⟩ <;>
      simp [updateFormList, List.get_eq_getElem, Fin.coe_cast,
        List.getElem_map]
  · intro e he
    simp only [updateFormList, List.mem_map] at he
    obtain ⟨fd, hfd, rfl⟩ := he
    exact List.mem_map_of_mem FormData.t hfd
  · intro item hitem hnot e he heq
    simp only [updateFormList, List.mem_map] at he
    obtain ⟨fd, hfd, rfl⟩ := he
    apply hnot
    rw [← heq]
    exact List.mem_map_of_mem FormData.t hfd

/-- Witness for `updateFormList_catalog_shape`: the user's selection for
table "b" is discarded because the catalog only lists table "a". -/
theorem updateFormList_catalog_shape_witness :
    entryBW ∈ [entryBW]
    ∧ entryBW.tableName ∉ dataW.map FormData.t
    ∧ ∀ e ∈ updateFormList [entryBW] ["a"] dataW,
        e.tableName ≠ entryBW.tableName :=
  ⟨by decide, by decide,
   (updateFormList_catalog_shape [entryBW] ["a"] dataW).2.2.2 entryBW
     (by decide) (by decide)⟩

theorem jobStep_inv {a b : SyncJob}
    (hInv : a.inFlight = true → a.status = "active") (h : JobStep a b) :
    b.inFlight = true → b.status = "active" := by
  cases h with
  | runStep =>
    by_cases hp : a.status = "pending"
    · intro _
      simp [SyncJob.run, hp]
    · have hr : a.run = (a, { fetchIssued := false }) := by
        simp [SyncJob.run, hp]
      rw [hr]
      exact hInv
  | cbSuccess hf =>
    intro hb
    simp [SyncJob.onSuccess] at hb
  | cbError hf =>
    intro hb
    simp [SyncJob.onError] at hb

theorem jobReach_inv {t m tn : String} {r : Ref} {b : SyncJob}
    (h : JobReach (SyncJob.new t m tn r) b) :
    b.inFlight = true → b.status = "active" := by
  induction h with
  | refl =>
    intro hf
    exact absurd hf (by simp [SyncJob.new])
  | tail hsteps hstep ih => exact jobStep_inv ih hstep

/-- C7: a freshly constructed job starts in status `'pending'`, and along
any sequence of lifecycle operations the status moves only along
pending→active→{success, error}; in particular once a reachable job is
`'success'` or `'error'`, no further operation changes its status. -/
theorem job_status_transitions (type mode tableName : String) (ref : Ref) :
    (SyncJob.new type mode tableName ref).status = "pending"
    ∧ ∀ a b : SyncJob, JobReach (SyncJob.new type mode tableName ref) a →
        JobStep a b →
        (statusTransOK a.status b.status
          ∧ ((a.status = "success" ∨ a.status = "error") →
              b.status = a.status)) := by
  refine ⟨rfl, ?_⟩
  intro a b hreach hstep
  have hInv := jobReach_inv hreach
  constructor
  · cases hstep with
    | runStep =>
      by_cases hp : a.status = "pending"
      · refine Or.inr (Or.inl ⟨hp, ?_⟩)
        simp [SyncJob.run, hp]
      · have hr : a.run = (a, { fetchIssued := false }) := by
          simp [SyncJob.run, hp]
        exact Or.inl (by rw [hr])
    | cbSuccess hf => exact Or.inr (Or.inr ⟨hInv hf, Or.inl rfl⟩)
    | cbError hf => exact Or.inr (Or.inr ⟨hInv hf, Or.inr rfl⟩)
  · intro hterm
    cases hstep with
    | runStep =>
      have hp : a.status ≠ "pending" := by
        rcases hterm with ht | ht <;> rw [ht] <;> decide
      have hr : a.run = (a, { fetchIssued := false }) := by
        simp [SyncJob.run, hp]
      rw [hr]
    | cbSuccess hf =>
      have ha := hInv hf
      rcases hterm with ht | ht <;> rw [ht] at ha <;> exact absurd ha (by decide)
    | cbError hf =>
      have ha := hInv hf
      rcases hterm with ht | ht <;> rw [ht] at ha <;> exact absurd ha (by decide)

theorem isEmpty_false_of_ne_nil {α : Type} {l : List α} (h : l ≠ []) :
    l.isEmpty = false := by
  cases l with
  | nil => exact absurd rfl h
  | cons a t => rfl

theorem synchronize_succ_queue (fuel : Nat) (st : SyncState)
    (forms : List FormEntry) (env : Env) (hne : st.syncJobs ≠ []) :
    synchronize (fuel + 1) st forms env
      = some ({ st with syncInProgress := true,
                        syncJobs := activatePending st.syncJobs },
          { ranPending := (st.syncJobs.filter (fun j => j.status == "pending")).length,
            resolvedFormList := false, jobsGenerated := 0, recursedWith := none,
            aggregationTriggered := false, httpErrorRaised := false,
            rejectedWith := none }) := by
  simp only [synchronize]
  rw [if_pos (isEmpty_false_of_ne_nil hne)]

/-- C5: the driver sets `syncInProgress` optimistically; with a non-empty
queue it invokes `run()` exactly on the pending jobs and neither resolves
the form list nor recurses; with an empty queue it resolves the form list,
generates jobs from it, recurses with the resolved list iff at least one
job was scheduled, and otherwise triggers a status-aggregation pass that
corrects the flag back to false. -/
theorem synchronize_spec (st : SyncState) (forms : List FormEntry)
    (env : Env) (h : st.statusUpdate = false) :
    (st.syncJobs ≠ [] →
      synchronize 2 st forms env
        = some ({ st with syncInProgress := true,
                          syncJobs := activatePending st.syncJobs },
            { ranPending := (st.syncJobs.filter (fun j => j.status == "pending")).length,
              resolvedFormList := false, jobsGenerated := 0, recursedWith := none,
              aggregationTriggered := false, httpErrorRaised := false,
              rejectedWith := none }))
    ∧ (∀ L eff, st.syncJobs = [] →
        getFormList forms { st with syncInProgress := true } env
          = (Except.ok L, { st with syncInProgress := true }, eff) →
        ((generateSyncJobs L []).1 > 0 →
          synchronize 2 st forms env
            = some ({ st with syncInProgress := true,
                              syncJobs := activatePending (generateSyncJobs L []).2 },
                { ranPending := 0, resolvedFormList := true,
                  jobsGenerated := (generateSyncJobs L []).1,
                  recursedWith := some L, aggregationTriggered := false,
                  httpErrorRaised := false, rejectedWith := none }))
        ∧ ((generateSyncJobs L []).1 = 0 →
          synchronize 2 st forms env
            = some ({ syncJobs := [], statusUpdate := false,
                      syncInProgress := false },
                { ranPending := 0, resolvedFormList := true, jobsGenerated := 0,
                  recursedWith := none, aggregationTriggered := true,
                  httpErrorRaised := false, rejectedWith := none }))) := by
  constructor
  · intro hne
    exact synchronize_succ_queue 1 st forms env hne
  · intro L eff he hgfl
    constructor
    · intro hpos
      have hne2 : (generateSyncJobs L []).2 ≠ [] := by
        rw [generateSyncJobs_eq]
        intro hnil
        rw [generateSyncJobs_eq] at hpos
        simp only [List.nil_append, List.map_eq_nil_iff] at hnil
        rw [hnil] at hpos
        exact absurd hpos (by simp)
      rw [show (2 : Nat) = 1 + 1 from rfl]
      simp only [synchronize]
      rw [if_neg (by simp [he]), hgfl]
      simp only [he]
      rw [if_pos hpos, if_pos (isEmpty_false_of_ne_nil hne2)]
    · intro hzero
      have hnil2 : (generateSyncJobs L []).2 = [] := by
        rw [generateSyncJobs_eq] at hzero ⊢
        simp only [List.length_eq_zero] at hzero
        simp [hzero]
      rw [show (2 : Nat) = 1 + 1 from rfl]
      simp only [synchronize]
      rw [if_neg (by simp [he]), hgfl]
      simp only [he]
      rw [if_neg (by simp [hzero]), hnil2]
      simp [updateSyncStatus, h, hzero]

/-- C6: when the server catalog request fails, the promise from
`getFormList` rejects with the transport response, an HTTP-error
notification is raised, no jobs are scheduled (the queue, empty when the
driver issues the request, stays empty), the driver does not recurse, and
`syncInProgress` settles back to false. -/
theorem catalog_failure_spec (st : SyncState) (env : Env) (resp : Response)
    (hq : st.syncJobs = []) (hs : st.statusUpdate = false)
    (hcat : env.catalog = Except.error resp) :
    getFormList [] { st with syncInProgress := true } env
      = (Except.error resp,
         { syncJobs := [], statusUpdate := false, syncInProgress := false },
         { serverCalled := true, tablesQueried := false,
           httpErrorRaised := true, aggregationTriggered := true })
    ∧ synchronize 2 st [] env
      = some ({ syncJobs := [], statusUpdate := false, syncInProgress := false },
          { ranPending := 0, resolvedFormList := true, jobsGenerated := 0,
            recursedWith := none, aggregationTriggered := true,
            httpErrorRaised := true, rejectedWith := some resp }) := by
  have hg : getFormList [] { st with syncInProgress := true } env
      = (Except.error resp,
         { syncJobs := [], statusUpdate := false, syncInProgress := false },
         { serverCalled := true, tablesQueried := false,
           httpErrorRaised := true, aggregationTriggered := true }) := by
    simp [getFormList, hcat, updateSyncStatus, hs, hq]
  refine ⟨hg, ?_⟩
  rw [show (2 : Nat) = 1 + 1 from rfl]
  simp only [synchronize]
  rw [if_neg (by simp [hq]), hg]

/-- Witness for `synchronize_spec`: from an idle empty-queue state with a
one-form catalog, the driver resolves the list, schedules one job and
recurses, ending with the job activated and the flag true. -/
theorem synchronize_spec_witness :
    stEmptyW.statusUpdate = false
    ∧ stEmptyW.syncJobs = []
    ∧ getFormList [] { stEmptyW with syncInProgress := true } envOkW
        = (Except.ok [entryDownloadW],
           { stEmptyW with syncInProgress := true }, gflOkEffW)
    ∧ (generateSyncJobs [entryDownloadW] []).1 > 0
    ∧ synchronize 2 stEmptyW [] envOkW
        = some ({ stEmptyW with
                  syncInProgress := true,
                  syncJobs := activatePending (generateSyncJobs [entryDownloadW] []).2 },
            recurseTraceW) :=
  ⟨rfl, rfl, rfl, by decide,
   ((synchronize_spec stEmptyW [] envOkW rfl).2 [entryDownloadW] gflOkEffW
      rfl rfl).1 (by decide)⟩

/-- Witness for `catalog_failure_spec`: an idle empty-queue state and a
404-failing catalog request. -/
theorem catalog_failure_spec_witness :
    stEmptyW.syncJobs = []
    ∧ stEmptyW.statusUpdate = false
    ∧ envFailW.catalog = Except.error ⟨404⟩
    ∧ (getFormList [] { stEmptyW with syncInProgress := true } envFailW
        = (Except.error ⟨404⟩, stEmptyW, gflFailEffW)
       ∧ synchronize 2 stEmptyW [] envFailW = some (stEmptyW, failTraceW)) :=
  ⟨rfl, rfl, rfl, catalog_failure_spec stEmptyW envFailW ⟨404⟩ rfl rfl rfl⟩

/-- Witness for `job_status_transitions`: the fresh job itself is reachable
and its first `run()` step obeys the discipline (pending→active). -/
theorem job_status_transitions_witness :
    JobReach jobNewW jobNewW
    ∧ JobStep jobNewW jobNewW.run.1
    ∧ (statusTransOK jobNewW.status jobNewW.run.1.status
        ∧ ((jobNewW.status = "success" ∨ jobNewW.status = "error") →
            jobNewW.run.1.status = jobNewW.status)) :=
  ⟨Relation.ReflTransGen.refl, JobStep.runStep jobNewW,
   (job_status_transitions "form" "pull" "t" refW).2 jobNewW jobNewW.run.1
     Relation.ReflTransGen.refl (JobStep.runStep jobNewW)⟩

end EdenSync

namespace EdenValidate

/-- C10 counterexample: `rules["toString"]` is the inherited truthy
Object.prototype.toString, so `encode("toString", {})` returns the string
"[object Undefined]" — non-null for a name outside the four rules; and
`rules["valueOf"]` (likewise `"__proto__"` and the other inherited members)
makes the call throw a TypeError, so `encode` does not never-throw. -/
theorem encode_proto_lookup_counterexample :
    encode "toString" (some Options.empty)
        = EncodeOutcome.stringValue "[object Undefined]"
    ∧ encode "toString" (some Options.empty) ≠ EncodeOutcome.nullValue
    ∧ encode "valueOf" (some Options.empty) = EncodeOutcome.typeError := by
  refine ⟨rfl, by decide, rfl⟩

/-- C10 amended: `encode(name, options)` returns null when `name` is
neither one of the four rule names nor an inherited Object.prototype
member; for each of the four rule names it returns a non-null object
containing directives, errors and message fields, treating an absent
options argument as the empty object; for names colliding with inherited
Object.prototype members it instead returns the member's call result — the
string "[object Undefined]" for toString and the options object for
constructor — or throws a TypeError for the remaining members. -/
theorem encode_spec_amended (name : String) (options : Option Options) :
    ((name = "isNotEmpty" ∨ name = "isIntInRange" ∨ name = "isFloatInRange"
        ∨ name = "isJson") →
      ∃ ds es msg, encode name options = EncodeOutcome.result ⟨ds, es, msg⟩)
    ∧ ((name ≠ "isNotEmpty" ∧ name ≠ "isIntInRange" ∧ name ≠ "isFloatInRange"
        ∧ name ≠ "isJson" ∧ name ∉ JsObject.prototypeKeys) →
      encode name options = EncodeOutcome.nullValue)
    ∧ (name = "toString" →
      encode name options = EncodeOutcome.stringValue "[object Undefined]")
    ∧ (name = "constructor" →
      encode name options
        = EncodeOutcome.echoed
            (match options with | some o => o | none => Options.empty))
    ∧ ((name ∈ JsObject.prototypeKeys ∧ name ≠ "toString"
        ∧ name ≠ "constructor") →
      encode name options = EncodeOutcome.typeError)
    ∧ encode name none = encode name (some Options.empty) := by
  refine ⟨?_, ?_, ?_, ?_, ?_, ?_⟩
  · rintro (rfl | rfl | rfl | rfl) <;> cases options <;> exact ⟨_, _, _, rfl⟩
  · rintro ⟨h1, h2, h3, h4, h5⟩
    have ht : name ≠ "toString" := fun he => h5 (he ▸ (by decide))
    have hc : name ≠ "constructor" := fun he => h5 (he ▸ (by decide))
    simp [encode, rules, h1, h2, h3, h4, ht, hc, h5]
  · rintro rfl
    cases options <;> rfl
  · rintro rfl
    cases options <;> rfl
  · rintro ⟨hmem, ht, hc⟩
    simp only [JsObject.prototypeKeys, List.mem_cons, List.not_mem_nil,
      or_false] at hmem
    rcases hmem with rfl | rfl | rfl | rfl | rfl | rfl | rfl | rfl | rfl
      | rfl | rfl | rfl
    · exact absurd rfl hc
    · exact absurd rfl ht
    all_goals cases options <;> rfl
  · cases options <;> rfl

/-- Witness for `encode_spec_amended` at the known rule name `"isJson"`
with the options argument absent, and at the unknown,
non-Object.prototype name `"bogus"`. -/
theorem encode_spec_amended_witness :
    (("isJson" : String) = "isNotEmpty" ∨ ("isJson" : String) = "isIntInRange"
      ∨ ("isJson" : String) = "isFloatInRange" ∨ ("isJson" : String) = "isJson")
    ∧ (∃ ds es msg, encode "isJson" none = EncodeOutcome.result ⟨ds, es, msg⟩)
    ∧ encode "bogus" none = EncodeOutcome.nullValue :=
  ⟨by decide, (encode_spec_amended "isJson" none).1 (by decide),
   (encode_spec_amended "bogus" none).2.1 (by decide)⟩

end EdenValidate
